import Mathlib

/-!
Verification of the statement-extraction and normalization pipeline of
`app.py` (AI credit-card statement analyzer).  Python strings are modelled
as `String` / `List Char`, Python floats as exact rationals (`ℚ`), and the
JSON values produced by `json.loads` as an explicit inductive type.  The
definitions are translated from the source; every function is total,
mirroring the fact that the corresponding Python code catches exceptions
and returns fallback values instead of raising.
-/

namespace CardParser

/-- Characters kept by `re.sub(r'[^\d.-]', '', ...)` in `parse_amount`
(app.py line 41): digits, the decimal point and the minus sign
(`\d` is modelled as the ASCII digits). -/
def keepChar (c : Char) : Bool := c.isDigit || c == '.' || c == '-'

/-- The cleaning step of `parse_amount`: `re.sub(r'[^\d.-]', '', str(x))`. -/
def cleanAmount (l : List Char) : List Char := l.filter keepChar

/-- Numeric value of a big-endian list of ASCII digit characters. -/
def digitsVal (ds : List Char) : ℕ := ds.foldl (fun a c => 10 * a + (c.toNat - 48)) 0

/-- Python `float()` on an unsigned string made only of digits and dots
(the only unsigned strings `parse_amount` can hand to `float`): it accepts
`d+`, `d+.d*` and `.d+` (at most one dot, at least one digit) and yields the
exact decimal value; everything else raises `ValueError`, modelled as `none`. -/
def floatParseMag (body : List Char) : Option ℚ :=
  if (∀ c ∈ body, c.isDigit ∨ c = '.') ∧ body.count '.' ≤ 1 ∧ (∃ c ∈ body, c.isDigit) then
    let ip := body.takeWhile (fun c => !(c == '.'))
    let fp := (body.dropWhile (fun c => !(c == '.'))).drop 1
    some (mkRat (digitsVal ip * 10 ^ fp.length + digitsVal fp) (10 ^ fp.length))
  else none

/-- Python `float()` on a string of digits, dots and minus signs (the image
of the cleaning step): an optional leading minus sign followed by an
unsigned decimal string.  A minus sign anywhere else makes the magnitude
check fail, exactly as `float()` rejects such strings. -/
def floatParseClean (l : List Char) : Option ℚ :=
  if l.head? = some '-' then (floatParseMag (l.drop 1)).map (fun m => -m)
  else floatParseMag l

/-- `parse_amount` (app.py lines 39-45): strip every character that is not a
digit, dot or minus sign, parse the remainder with `float()` (modelled
exactly over decimal rationals), and return `0.0` on any parse failure.
The function is total: the `try/except` never lets an exception escape. -/
def parse_amount (s : String) : ℚ :=
  match floatParseClean (cleanAmount s.data) with
  | some q => q
  | none => 0

example : parse_amount "₹12,345.67" = mkRat 1234567 100 := by decide
example : parse_amount "abc" = 0 := by decide
example : parse_amount "-500" = -500 := by decide
example : parse_amount "" = 0 := by decide
example : parse_amount "5." = 5 := by decide
example : parse_amount ".5" = mkRat 1 2 := by decide
example : parse_amount "-.5" = mkRat (-1) 2 := by decide
example : parse_amount "1.2.3" = 0 := by decide
example : parse_amount "--5" = 0 := by decide
example : parse_amount "1e5" = 15 := by decide

/-- Little-endian decimal digit characters of `n`, with explicit fuel so that
the definition is structural (and hence evaluates inside the kernel). -/
def natDigitsAux : ℕ → ℕ → List Char
  | 0, _ => []
  | fuel + 1, n => if n = 0 then [] else Nat.digitChar (n % 10) :: natDigitsAux fuel (n / 10)

/-- Big-endian decimal digit string of `n`; empty for `n = 0`. -/
def natChars (n : ℕ) : List Char := (natDigitsAux (n + 1) n).reverse

/-- Strip the exponent of `p` out of a number: `stripFactorAux p fuel d`
returns `(e, r)` with `d = p ^ e * r` and `p` not dividing `r`
(for `2 ≤ p`, `d ≠ 0` and enough fuel). -/
def stripFactorAux (p : ℕ) : ℕ → ℕ → ℕ × ℕ
  | 0, d => (0, d)
  | fuel + 1, d =>
    if 2 ≤ p ∧ d ≠ 0 ∧ p ∣ d then
      ((stripFactorAux p fuel (d / p)).1 + 1, (stripFactorAux p fuel (d / p)).2)
    else (0, d)

/-- Exponent of 2 in `q.den`, with the remaining cofactor. -/
def den2 (q : ℚ) : ℕ × ℕ := stripFactorAux 2 q.den q.den

/-- Exponent of 5 in the 2-free part of `q.den`, with the remaining cofactor. -/
def den5 (q : ℚ) : ℕ × ℕ := stripFactorAux 5 (den2 q).2 (den2 q).2

/-- Number of decimal places of the float value `q`: the least `k` with
`q * 10 ^ k` integral.  (For a non-decimal `q` — unreachable from `float()`
results — the fallback `q.den` keeps the function total.) -/
def decPlaces (q : ℚ) : ℕ := if (den5 q).2 = 1 then max (den2 q).1 (den5 q).1 else q.den

/-- The decimal significand `|q| * 10 ^ decPlaces q` as a natural number. -/
def decSig (q : ℚ) : ℕ := q.num.natAbs * (10 ^ decPlaces q / q.den)

/-- Big-endian digit characters of the significand of `q`. -/
def decDigitList (q : ℚ) : List Char := natChars (decSig q)

/-- Decimal exponent of `q`: the power of ten of its leading digit. -/
def decExp (q : ℚ) : ℤ := (decDigitList q).length - 1 - decPlaces q

/-- Whether CPython `str()`/`repr()` of the float with exact value `q` uses
scientific notation: decimal exponent at least 16 or less than -4. -/
def sciForm (q : ℚ) : Bool := decide (q ≠ 0 ∧ (16 ≤ decExp q ∨ decExp q ≤ -5))

/-- Drop trailing `'0'` characters. -/
def stripTrailingZeros (l : List Char) : List Char :=
  (l.reverse.dropWhile (fun c => c == '0')).reverse

/-- The scientific rendering `d[.ddd]e±EE` of a nonzero float value `q`,
with the exponent padded to at least two digits. -/
def sciRender (q : ℚ) : List Char :=
  (match decDigitList q with
   | [] => []
   | d :: rest =>
     (match stripTrailingZeros rest with
      | [] => [d]
      | rest' => d :: '.' :: rest')) ++
  ('e' :: (if decExp q < 0 then '-' else '+') ::
    (if (decExp q).natAbs < 10 then '0' :: natChars (decExp q).natAbs
     else natChars (decExp q).natAbs))

/-- The positional rendering `ddd.ddd` of a nonzero float value `q`. -/
def posRender (q : ℚ) : List Char :=
  if decPlaces q = 0 then decDigitList q ++ ['.', '0']
  else
    (match natChars (decSig q / 10 ^ decPlaces q) with
     | [] => ['0']
     | l => l) ++ '.' ::
      (List.replicate (decPlaces q - (natChars (decSig q % 10 ^ decPlaces q)).length) '0' ++
        natChars (decSig q % 10 ^ decPlaces q))

/-- CPython `str()` (= `repr()`) of a float whose exact value is the decimal
rational `q` (floats are idealized as exact decimals; `nan`/`inf` are out of
scope): the shortest positional form `[-]ddd.ddd` when the decimal exponent
lies in `[-4, 16)`, otherwise scientific notation `[-]d[.ddd]e±EE`. -/
def pyStrOfFloat (q : ℚ) : String :=
  if q = 0 then "0.0" else
  String.mk ((if q < 0 then ['-'] else []) ++
    (if sciForm q then sciRender q else posRender q))

example : pyStrOfFloat 0 = "0.0" := by decide
example : pyStrOfFloat (mkRat 25 2) = "12.5" := by decide
example : pyStrOfFloat 5 = "5.0" := by decide
example : pyStrOfFloat (mkRat (-1) 2) = "-0.5" := by decide
example : pyStrOfFloat (mkRat 1 100) = "0.01" := by decide
example : pyStrOfFloat 10000000000000000 = "1e+16" := by decide
example : pyStrOfFloat 9999999999999999 = "9999999999999999.0" := by decide
example : pyStrOfFloat (mkRat 1 100000) = "1e-05" := by decide
example : pyStrOfFloat (mkRat 1 10000) = "0.0001" := by decide
example : pyStrOfFloat (mkRat 15 100000) = "0.00015" := by decide
example : pyStrOfFloat (mkRat 15 1000000) = "1.5e-05" := by decide
example : pyStrOfFloat (-500) = "-500.0" := by decide

mutual
/-- The values produced by `json.loads`: JSON strings, integers, booleans,
`null`, arrays and objects.  (JSON floats are outside the modelled
sublanguage; the app's schema carries amounts and dates as strings.) -/
inductive Json where
  | str (s : String)
  | num (n : ℤ)
  | bool (b : Bool)
  | null
  | arr (xs : JsonList)
  | obj (fs : JsonFields)

/-- A JSON array's elements. -/
inductive JsonList where
  | nil
  | cons (hd : Json) (tl : JsonList)

/-- A JSON object's fields, in Python-dict insertion order. -/
inductive JsonFields where
  | nil
  | cons (key : String) (value : Json) (tl : JsonFields)
end

deriving instance DecidableEq for Json
deriving instance DecidableEq for JsonList
deriving instance DecidableEq for JsonFields

/-- `d.get(key)`/`d[key]` lookup on the fields of a JSON object. -/
def JsonFields.lookup : JsonFields → String → Option Json
  | .nil, _ => none
  | .cons k v tl, key => if k = key then some v else tl.lookup key

/-- `d[key] = v` on a Python dict: replace in place if the key exists
(keeping its position), else append. -/
def JsonFields.setKey : JsonFields → String → Json → JsonFields
  | .nil, key, v => .cons key v .nil
  | .cons k v0 tl, key, v =>
    if k = key then .cons k v tl else .cons k v0 (tl.setKey key v)

/-- Build a dict by repeated assignment, as `json.loads` does for object
members: a repeated key keeps its first position and its last value. -/
def JsonFields.ofAssign (kvs : List (String × Json)) : JsonFields :=
  kvs.foldl (fun fs kv => fs.setKey kv.1 kv.2) .nil

/-- The elements of a JSON array as a Lean list. -/
def JsonList.toList : JsonList → List Json
  | .nil => []
  | .cons x tl => x :: tl.toList

/-- A JSON array from a Lean list. -/
def JsonList.ofList : List Json → JsonList
  | [] => .nil
  | x :: t => .cons x (JsonList.ofList t)

/-- Lookup on a JSON value that is expected to be an object. -/
def jsonLookup (j : Json) (key : String) : Option Json :=
  match j with
  | .obj fs => fs.lookup key
  | _ => none

/-- Python `stmt.get(key, default)` on the dict-shaped JSON records the app
manipulates. -/
def jsonGetD (j : Json) (key : String) (d : Json) : Json :=
  match j with
  | .obj fs => (fs.lookup key).getD d
  | _ => d

/-- `d[key] = v` on a dict-shaped JSON value.  (The app only reaches this
on dicts; on a non-dict Python would raise, and the model is the
identity.) -/
def jsonSetKey (j : Json) (key : String) (v : Json) : Json :=
  match j with
  | .obj fs => .obj (fs.setKey key v)
  | _ => j

/-- Python `str()` of an `int`. -/
def intStr (n : ℤ) : String :=
  String.mk ((if n < 0 then ['-'] else []) ++ (if n = 0 then ['0'] else natChars n.natAbs))

mutual
/-- Python `str()` of a JSON-decoded value: strings verbatim, ints in
decimal, `True`/`False`/`None`, and the `repr`-based rendering of list and
dict contents. -/
def pyStrOfJson : Json → String
  | .str s => s
  | .num n => intStr n
  | .bool b => if b then "True" else "False"
  | .null => "None"
  | .arr xs => "[" ++ pyReprItems xs ++ "]"
  | .obj fs => "\x7b" ++ pyReprFields fs ++ "\x7d"

/-- Python `repr()` of a JSON-decoded value, as used for elements inside
container `str()`; strings are single-quoted (escaping idealized away). -/
def pyReprOfJson : Json → String
  | .str s => "\x27" ++ s ++ "\x27"
  | .num n => intStr n
  | .bool b => if b then "True" else "False"
  | .null => "None"
  | .arr xs => "[" ++ pyReprItems xs ++ "]"
  | .obj fs => "\x7b" ++ pyReprFields fs ++ "\x7d"

/-- Comma-separated `repr`s of array elements. -/
def pyReprItems : JsonList → String
  | .nil => ""
  | .cons x .nil => pyReprOfJson x
  | .cons x tl => pyReprOfJson x ++ ", " ++ pyReprItems tl

/-- Comma-separated `key: value` `repr`s of object fields. -/
def pyReprFields : JsonFields → String
  | .nil => ""
  | .cons k v .nil => "\x27" ++ k ++ "\x27: " ++ pyReprOfJson v
  | .cons k v tl => "\x27" ++ k ++ "\x27: " ++ pyReprOfJson v ++ ", " ++ pyReprFields tl
end

/-- JSON inter-token whitespace. -/
def jsonWs (c : Char) : Bool := c == ' ' || c == '\t' || c == '\n' || c == '\r'

/-- Skip JSON whitespace. -/
def skipWs (l : List Char) : List Char := l.dropWhile jsonWs

/-- Parse the body of a JSON string after the opening quote, up to the
closing quote.  Models `json.loads` on the escape-free sublanguage:
backslash escapes are not modelled, raw control characters are rejected as
in the strict mode of `json.loads`. -/
def parseStrBody (l : List Char) : Option (String × List Char) :=
  match l.dropWhile (fun c => !(c == '"') && !(c == '\\') && !(c.toNat < 32)) with
  | '"' :: rest =>
    some (String.mk (l.takeWhile (fun c => !(c == '"') && !(c == '\\') && !(c.toNat < 32))), rest)
  | _ => none

/-- Parse a JSON number.  The model covers the integer grammar
(optional minus, no leading zeros); fraction and exponent forms are not
modelled (`none`), which only narrows the modelled JSON sublanguage. -/
def parseNum (l : List Char) : Option (Json × List Char) :=
  let neg := match l with
    | '-' :: _ => true
    | _ => false
  let l1 := if neg then l.drop 1 else l
  match l1 with
  | [] => none
  | c :: t =>
    if !c.isDigit then none
    else if c == '0' then
      match t with
      | d :: _ =>
        if d.isDigit || d == '.' || d == 'e' || d == 'E' then none else some (.num 0, t)
      | [] => some (.num 0, t)
    else
      let ds := l1.takeWhile Char.isDigit
      let rest := l1.dropWhile Char.isDigit
      match rest with
      | d :: _ =>
        if d == '.' || d == 'e' || d == 'E' then none
        else some (.num (if neg then -(digitsVal ds : ℤ) else (digitsVal ds : ℤ)), rest)
      | [] => some (.num (if neg then -(digitsVal ds : ℤ) else (digitsVal ds : ℤ)), rest)

mutual
/-- Recursive-descent parser for one JSON value; `fuel` bounds the
recursion and `loads` supplies more than enough of it. -/
def parseVal : ℕ → List Char → Option (Json × List Char)
  | 0, _ => none
  | fuel + 1, l =>
    match skipWs l with
    | [] => none
    | c :: r =>
      if c == '"' then (parseStrBody r).map (fun p => (.str p.1, p.2))
      else if c == '[' then
        match skipWs r with
        | ']' :: r2 => some (.arr .nil, r2)
        | r2 =>
          match parseItems fuel r2 with
          | some (xs, r3) => some (.arr (JsonList.ofList xs), r3)
          | none => none
      else if c == '\x7b' then
        match skipWs r with
        | '\x7d' :: r2 => some (.obj .nil, r2)
        | r2 =>
          match parseMembers fuel r2 with
          | some (kvs, r3) => some (.obj (JsonFields.ofAssign kvs), r3)
          | none => none
      else if c == 't' then
        match r with
        | 'r' :: 'u' :: 'e' :: r2 => some (.bool true, r2)
        | _ => none
      else if c == 'f' then
        match r with
        | 'a' :: 'l' :: 's' :: 'e' :: r2 => some (.bool false, r2)
        | _ => none
      else if c == 'n' then
        match r with
        | 'u' :: 'l' :: 'l' :: r2 => some (.null, r2)
        | _ => none
      else parseNum (c :: r)

/-- One or more comma-separated array items followed by `]`. -/
def parseItems : ℕ → List Char → Option (List Json × List Char)
  | 0, _ => none
  | fuel + 1, l =>
    match parseVal fuel l with
    | none => none
    | some (v, r) =>
      match skipWs r with
      | ',' :: r2 =>
        match parseItems fuel r2 with
        | some (xs, r3) => some (v :: xs, r3)
        | none => none
      | ']' :: r2 => some ([v], r2)
      | _ => none

/-- One or more `"key": value` object members followed by the closing
brace. -/
def parseMembers : ℕ → List Char → Option (List (String × Json) × List Char)
  | 0, _ => none
  | fuel + 1, l =>
    match skipWs l with
    | '"' :: r =>
      match parseStrBody r with
      | none => none
      | some (k, r1) =>
        match skipWs r1 with
        | ':' :: r2 =>
          match parseVal fuel r2 with
          | none => none
          | some (v, r3) =>
            match skipWs r3 with
            | ',' :: r4 =>
              match parseMembers fuel r4 with
              | some (kvs, r5) => some ((k, v) :: kvs, r5)
              | none => none
            | c :: r4 =>
              if c == '\x7d' then some ([(k, v)], r4) else none
            | [] => none
        | _ => none
    | _ => none
end

/-- `json.loads` on the modelled JSON sublanguage: parse one value with
whitespace around it and require the whole input to be consumed;
`none` models `json.JSONDecodeError`. -/
def loads (l : List Char) : Option Json :=
  match parseVal (2 * l.length + 2) l with
  | some (v, rest) => if skipWs rest = [] then some v else none
  | none => none

example : loads "\x7b\x22a\x22: 1, \x22b\x22: [true, null]\x7d".data
    = some (.obj (.cons "a" (.num 1) (.cons "b"
        (.arr (.cons (.bool true) (.cons .null .nil))) .nil))) := by decide
example : loads "  \x22hi\x22 ".data = some (.str "hi") := by decide
example : loads "-12".data = some (.num (-12)) := by decide
example : loads "01".data = none := by decide
example : loads "\x7b\x22a\x22: 1\x7d x".data = none := by decide
example : loads "\x7b\x7d".data = some (.obj .nil) := by decide
example : loads "\x7b\x22a\x22: 1, \x22a\x22: 2\x7d".data
    = some (.obj (.cons "a" (.num 2) .nil)) := by decide

/-- Python `str.strip()` (whitespace idealized as the ASCII whitespace of
`Char.isWhitespace`). -/
def trimL (l : List Char) : List Char :=
  ((l.dropWhile Char.isWhitespace).reverse.dropWhile Char.isWhitespace).reverse

/-- Python `r[:-n]`. -/
def dropRightL (n : ℕ) (l : List Char) : List Char := l.take (l.length - n)

/-- Line 111-112 of app.py: `if response_text.startswith("```json"):
response_text = response_text[7:]`. -/
def stripTag (l : List Char) : List Char :=
  if "```json".data.isPrefixOf l then l.drop 7 else l

/-- Line 113-114 of app.py: `if response_text.startswith("```"):
response_text = response_text[3:]`. -/
def stripOpen (l : List Char) : List Char :=
  if "```".data.isPrefixOf l then l.drop 3 else l

/-- Line 115-116 of app.py: `if response_text.endswith("```"):
response_text = response_text[:-3]`. -/
def stripClose (l : List Char) : List Char :=
  if "```".data.isSuffixOf l then dropRightL 3 l else l

/-- The code-fence stripping of `extract_data_from_file` (app.py lines
109-118): `strip()`, drop a leading ```` ```json ```` tag (7 characters) and
then a leading ```` ``` ```` (3 characters), drop a trailing ```` ``` ````,
and `strip()` again. -/
def stripFences (l : List Char) : List Char :=
  trimL (stripClose (stripOpen (stripTag (trimL l))))

/-- Detail text of a `json.JSONDecodeError` (its exact wording is
environment-dependent; only the message prefix naming the document
matters to the spec). -/
def jsonErrorDetail : String := "Expecting value"

/-- Detail text of the `TypeError` raised by `data['filename'] = ...` when
the parsed JSON value is not an object. -/
def typeErrorDetail : String := "does not support item assignment"

/-- `extract_data_from_file` (app.py lines 47-127).  The oracle call is an
input: `.ok text` is a Gemini response whose `.text` is `text`; `.error e`
is any exception raised while reading the file or calling the model
(carrying `str(e)`).  The unused `file_index`/`total_files` parameters are
omitted.  Returns `(data, error)`: on success the parsed JSON object with
the `filename` key set to the uploaded file's name; on failure `none`
together with a message naming the file.  `json.JSONDecodeError` and every
other `Exception` are caught, so the function is total. -/
def extract_data_from_file (name : String) (oracle : Except String String) :
    Option Json × Option String :=
  match oracle with
  | .error e => (none, some ("Error processing " ++ name ++ ": " ++ e))
  | .ok text =>
    match loads (stripFences text.data) with
    | none => (none, some ("JSON parsing error in " ++ name ++ ": " ++ jsonErrorDetail))
    | some (.obj fs) => (some (.obj (fs.setKey "filename" (.str name))), none)
    | some _ => (none, some ("Error processing " ++ name ++ ": " ++ typeErrorDetail))

/-- The body of the batch processing loop (app.py lines 294-299):
`data, error = extract_data_from_file(...)`, then `if error:` display the
error (collected in the second component) `else` append `data` to
`st.session_state.all_statements` (first component).  The `(none, none)`
case of the match is unreachable (see `extract_outcome`); Python would
append `None` to the statements there. -/
def processStep (acc : List Json × List String) (f : String × Except String String) :
    List Json × List String :=
  match extract_data_from_file f.1 f.2 with
  | (some d, none) => (acc.1 ++ [d], acc.2)
  | (_, some e) => (acc.1, acc.2 ++ [e])
  | (none, none) => acc

/-- The batch processing loop (app.py lines 290-299): every document is
processed independently by folding `processStep` from an empty batch. -/
def processBatch (files : List (String × Except String String)) :
    List Json × List String :=
  files.foldl processStep ([], [])

/-- The Streamlit session state driving batch accumulation (app.py lines
31-37). -/
structure SessionState where
  all_statements : List Json
  processing_complete : Bool
  last_upload_count : ℕ
  deriving DecidableEq

/-- The top-level upload handling (app.py lines 276-304): with a non-empty
upload set, a change in the number of uploaded documents resets the
accumulated statements and the processing flag before processing; if
processing is not yet complete, the loop appends this batch's successful
records and marks processing complete.  (Errors are displayed, not stored;
`st.rerun()` only re-renders.) -/
def handleUpload (st0 : SessionState) (files : List (String × Except String String)) :
    SessionState :=
  if files.isEmpty then st0 else
  let st1 :=
    if files.length ≠ st0.last_upload_count then
      { all_statements := [], processing_complete := false, last_upload_count := files.length }
    else st0
  if st1.processing_complete then st1
  else
    { all_statements := st1.all_statements ++ (processBatch files).1,
      processing_complete := true,
      last_upload_count := st1.last_upload_count }

/-- Python ASCII `str.lower()`. -/
def strLower (s : String) : String := String.mk (s.data.map Char.toLower)

/-- `txn.get('type', '').lower() == 'debit'` (app.py line 135).  The app's
records carry string `type` fields; on a non-string Python would raise
inside the chart helper, and the model answers `false`. -/
def isDebitTxn (t : Json) : Bool :=
  match jsonGetD t "type" (.str "") with
  | .str s => strLower s == "debit"
  | _ => false

/-- The rows of `create_aggregate_category_chart` (app.py lines 131-139):
for every statement with a `transactions` key, every debit transaction
contributes its `category` value and `parse_amount` of its `amount`.
(A non-list `transactions` value cannot be iterated as transaction dicts;
the model contributes nothing for it.) -/
def aggregateChartEntries (stmts : List Json) : List (Json × ℚ) :=
  stmts.foldl
    (fun acc stmt =>
      match jsonLookup stmt "transactions" with
      | some (.arr ts) =>
        acc ++ (ts.toList.filter isDebitTxn).map
          (fun t => (jsonGetD t "category" (.str "Other"),
                     parse_amount (pyStrOfJson (jsonGetD t "amount" (.str "0")))))
      | _ => acc)
    []

/-- Round half to even to an integer (the rounding used by Python's fixed
point formatting). -/
def roundHalfEven (x : ℚ) : ℤ :=
  let f := ⌊x⌋
  if x - (f : ℚ) < 1 / 2 then f
  else if 1 / 2 < x - (f : ℚ) then f + 1
  else if f % 2 = 0 then f else f + 1

/-- Python `f"{x:.1f}"` on the exact value `x` (float rounding idealized
away): one digit after the point, round half to even, the sign taken from
the value (so a small negative value formats as `-0.0`). -/
def pyFormat1f (q : ℚ) : String :=
  let m := (roundHalfEven (q * 10)).natAbs
  String.mk ((if q < 0 then ['-'] else []) ++
    (match natChars (m / 10) with
     | [] => ['0']
     | l => l) ++ '.' :: [Nat.digitChar (m % 10)])

/-- The `'Utilization'` field of a comparison-table row (app.py line 364):
formatted `total / limit * 100` when `parse_amount` of the `credit_limit`
field (defaulting to `'0'`) is positive — the divisor re-reads the field
with default `'1'` — else the string `'N/A'`. -/
def comparisonUtilization (stmt : Json) : String :=
  if 0 < parse_amount (pyStrOfJson (jsonGetD stmt "credit_limit" (.str "0"))) then
    pyFormat1f (parse_amount (pyStrOfJson (jsonGetD stmt "total_amount_due" (.str "0"))) /
        parse_amount (pyStrOfJson (jsonGetD stmt "credit_limit" (.str "1"))) * 100) ++ "%"
  else "N/A"

/-- The `'Utilization %'` field of `create_card_comparison_chart`
(app.py lines 167-174): `total / limit * 100` when the parsed credit limit
is positive, else `0`. -/
def chartUtilization (stmt : Json) : ℚ :=
  let total_due := parse_amount (pyStrOfJson (jsonGetD stmt "total_amount_due" (.str "0")))
  let credit_limit := parse_amount (pyStrOfJson (jsonGetD stmt "credit_limit" (.str "0")))
  if 0 < credit_limit then total_due / credit_limit * 100 else 0

/-- The per-card `Credit Utilization` metric (app.py lines 415-422):
formatted percentage when the parsed credit limit is positive, else
`'N/A'`. -/
def metricUtilization (stmt : Json) : String :=
  let credit_limit_val := parse_amount (pyStrOfJson (jsonGetD stmt "credit_limit" (.str "0")))
  let total_due_val := parse_amount (pyStrOfJson (jsonGetD stmt "total_amount_due" (.str "0")))
  if 0 < credit_limit_val then pyFormat1f (total_due_val / credit_limit_val * 100) ++ "%"
  else "N/A"

/-- `f"{stmt.get('issuer', 'Unknown')} *{stmt.get('card_last_4', '****')}"`
(app.py line 489). -/
def cardIdOf (stmt : Json) : String :=
  pyStrOfJson (jsonGetD stmt "issuer" (.str "Unknown")) ++ " *" ++
    pyStrOfJson (jsonGetD stmt "card_last_4" (.str "****"))

/-- `stmt.get('transactions', [])` as a Lean list (a non-list value cannot
be iterated as transaction dicts and contributes nothing). -/
def stmtTxns (stmt : Json) : List Json :=
  match jsonGetD stmt "transactions" (.arr .nil) with
  | .arr ts => ts.toList
  | _ => []

/-- One step of the transactions-CSV export loop (app.py lines 490-493):
`txn_copy = txn.copy(); txn_copy['card'] = card_id`.  The first component
is the row appended to `all_transactions` (the mutated copy); the second is
the transaction object as the statement keeps it — the code mutates only
the copy, so the original comes back unchanged. -/
def exportTxnStep (cardId : String) (txn : Json) : Json × Json :=
  (jsonSetKey txn "card" (.str cardId), txn)

/-- Replace the transaction list of a statement; used to express what the
session state holds after an export pass. -/
def setStmtTxns (stmt : Json) (ts : List Json) : Json :=
  match jsonLookup stmt "transactions" with
  | some (.arr _) => jsonSetKey stmt "transactions" (.arr (JsonList.ofList ts))
  | _ => stmt

/-- The transactions-CSV export (app.py lines 486-497): builds the
`all_transactions` rows, and returns them together with the statements as
the session holds them after the loop (rebuilt from the per-transaction
second components of `exportTxnStep`). -/
def exportTransactions (stmts : List Json) : List Json × List Json :=
  (stmts.foldl
     (fun acc stmt =>
       acc ++ (stmtTxns stmt).map (fun t => (exportTxnStep (cardIdOf stmt) t).1))
     [],
   stmts.map (fun stmt =>
     setStmtTxns stmt ((stmtTxns stmt).map (fun t => (exportTxnStep (cardIdOf stmt) t).2))))

/-- Portfolio aggregate metrics (app.py lines 316-319): pure folds of
`parse_amount` over the statements. -/
def portfolioTotals (stmts : List Json) : ℚ × ℚ × ℚ :=
  ((stmts.map (fun s => parse_amount (pyStrOfJson (jsonGetD s "total_amount_due" (.str "0"))))).sum,
   (stmts.map (fun s => parse_amount (pyStrOfJson (jsonGetD s "credit_limit" (.str "0"))))).sum,
   (stmts.map (fun s => parse_amount (pyStrOfJson (jsonGetD s "available_credit_limit" (.str "0"))))).sum)

/-- Modelled from the spec: the §3 StatementRecord shape that §4.6 says the
adapter validates parsed JSON against — the required field names, the
nested `statement_period{from,to}` object, and the transaction and insight
arrays (`customer_name` and `rewards_points` are optional in §3).  The
source contains no such check; this definition exists to compare the code
against the spec's words. -/
def matchesStatementShape (j : Json) : Bool :=
  match j with
  | .obj fs =>
    (fs.lookup "issuer").isSome &&
    (fs.lookup "card_type").isSome &&
    (fs.lookup "card_last_4").isSome &&
    (match fs.lookup "statement_period" with
     | some (.obj p) => (p.lookup "from").isSome && (p.lookup "to").isSome
     | _ => false) &&
    (fs.lookup "payment_due_date").isSome &&
    (fs.lookup "credit_limit").isSome &&
    (fs.lookup "available_credit_limit").isSome &&
    (fs.lookup "total_amount_due").isSome &&
    (fs.lookup "minimum_amount_due").isSome &&
    (match fs.lookup "transactions" with
     | some (.arr _) => true
     | _ => false) &&
    (match fs.lookup "insights" with
     | some (.arr _) => true
     | _ => false)
  | _ => false

example :
    extract_data_from_file "a.pdf" (.ok "```json\n\x7b\x22issuer\x22: \x22HDFC\x22\x7d\n```")
      = (some (.obj (.cons "issuer" (.str "HDFC") (.cons "filename" (.str "a.pdf") .nil))), none) := by
  decide
example :
    extract_data_from_file "a.pdf" (.ok "not json")
      = (none, some ("JSON parsing error in a.pdf: " ++ jsonErrorDetail)) := by decide
example :
    extract_data_from_file "a.pdf" (.error "boom")
      = (none, some "Error processing a.pdf: boom") := by decide
example :
    extract_data_from_file "a.pdf" (.ok "[1, 2]")
      = (none, some ("Error processing a.pdf: " ++ typeErrorDetail)) := by decide
example : matchesStatementShape (.obj (.cons "filename" (.str "a.pdf") .nil)) = false := by decide

/-! ## Helper lemmas -/

theorem JsonFields.lookup_setKey : ∀ (fs : JsonFields) (k : String) (v : Json),
    (fs.setKey k v).lookup k = some v
  | .nil, k, v => by simp [JsonFields.setKey, JsonFields.lookup]
  | .cons k' v' tl, k, v => by
    by_cases h : k' = k <;>
      simp [JsonFields.setKey, JsonFields.lookup, h, JsonFields.lookup_setKey tl k v]

/-- Case split on the outcome of `extract_data_from_file`: either a record —
the parsed object with the file's name attached — together with no error, or
no record together with an error message built around the file's name. -/
theorem extract_outcome (name : String) (oracle : Except String String) :
    (∃ fs : JsonFields, extract_data_from_file name oracle
        = (some (Json.obj (fs.setKey "filename" (.str name))), none)) ∨
    (∃ p s, extract_data_from_file name oracle = (none, some (p ++ name ++ s))) := by
  cases oracle with
  | error e =>
    refine Or.inr ⟨"Error processing ", ": " ++ e, ?_⟩
    simp [extract_data_from_file, String.append_assoc]
  | ok t =>
    cases h : loads (stripFences t.data) with
    | none =>
      refine Or.inr ⟨"JSON parsing error in ", ": " ++ jsonErrorDetail, ?_⟩
      simp [extract_data_from_file, h, String.append_assoc]
    | some v =>
      cases v with
      | obj fs => exact Or.inl ⟨fs, by simp [extract_data_from_file, h]⟩
      | str s =>
        exact Or.inr ⟨"Error processing ", ": " ++ typeErrorDetail,
          by simp [extract_data_from_file, h, String.append_assoc]⟩
      | num n =>
        exact Or.inr ⟨"Error processing ", ": " ++ typeErrorDetail,
          by simp [extract_data_from_file, h, String.append_assoc]⟩
      | bool b =>
        exact Or.inr ⟨"Error processing ", ": " ++ typeErrorDetail,
          by simp [extract_data_from_file, h, String.append_assoc]⟩
      | null =>
        exact Or.inr ⟨"Error processing ", ": " ++ typeErrorDetail,
          by simp [extract_data_from_file, h, String.append_assoc]⟩
      | arr xs =>
        exact Or.inr ⟨"Error processing ", ": " ++ typeErrorDetail,
          by simp [extract_data_from_file, h, String.append_assoc]⟩

theorem processBatch_foldl (files : List (String × Except String String))
    (a : List Json) (b : List String) :
    files.foldl processStep (a, b)
      = (a ++ files.filterMap (fun f => (extract_data_from_file f.1 f.2).1),
         b ++ files.filterMap (fun f => (extract_data_from_file f.1 f.2).2)) := by
  induction files generalizing a b with
  | nil => simp
  | cons f fs ih =>
    rcases extract_outcome f.1 f.2 with ⟨fsj, h⟩ | ⟨p, s, h⟩
    · simp [List.foldl_cons, processStep, h, ih, List.filterMap_cons]
    · simp [List.foldl_cons, processStep, h, ih, List.filterMap_cons]

/-- The backquote character, the code-fence delimiter. -/
def backquote : Char := Char.ofNat 96

theorem dropWhile_append_of_all {p : Char → Bool} {w l : List Char}
    (hw : ∀ c ∈ w, p c = true) : (w ++ l).dropWhile p = l.dropWhile p := by
  induction w with
  | nil => rfl
  | cons a w ih =>
    simp only [List.cons_append, List.dropWhile_cons, hw a (by simp), if_true]
    exact ih (fun c hc => hw c (by simp [hc]))

theorem dropWhile_cons_of_neg {p : Char → Bool} {a : Char} {l : List Char}
    (h : ¬ p a = true) : (a :: l).dropWhile p = a :: l := by
  simp [List.dropWhile_cons, h]

/-- `strip()` of a string that is whitespace, then a block with non-blank
first and last characters, then whitespace, returns exactly the block. -/
theorem trimL_sandwich (w1 w2 mid : List Char) (a b : Char) (t u : List Char)
    (hm1 : mid = a :: t) (hm2 : mid = u ++ [b])
    (ha : a.isWhitespace = false) (hb : b.isWhitespace = false)
    (hw1 : ∀ x ∈ w1, x.isWhitespace = true) (hw2 : ∀ x ∈ w2, x.isWhitespace = true) :
    trimL (w1 ++ mid ++ w2) = mid := by
  unfold trimL
  have h1 : (w1 ++ mid ++ w2).dropWhile Char.isWhitespace = mid ++ w2 := by
    rw [List.append_assoc, dropWhile_append_of_all hw1, hm1, List.cons_append,
      dropWhile_cons_of_neg (by simp [ha]), ← List.cons_append, ← hm1]
  have h2 : ((mid ++ w2).reverse).dropWhile Char.isWhitespace = mid.reverse := by
    rw [List.reverse_append,
      dropWhile_append_of_all (fun c hc => hw2 c (List.mem_reverse.mp hc)), hm2,
      List.reverse_append, List.reverse_singleton, List.singleton_append,
      dropWhile_cons_of_neg (by simp [hb])]
  rw [h1, h2, List.reverse_reverse]

/-- The fence-stripping lemma behind C3: for whitespace `w1`, `w2`, a tag
that is `json` or empty, and a fenced block starting with a character that
is neither a backquote nor `j`, `stripFences` returns the stripped block. -/
theorem stripFences_fenced (w1 w2 J' : List Char) (c : Char) (tag : List Char)
    (htag : tag = "json".data ∨ tag = [])
    (hw1 : ∀ x ∈ w1, x.isWhitespace = true) (hw2 : ∀ x ∈ w2, x.isWhitespace = true)
    (hc1 : c ≠ backquote) (hc2 : c ≠ 'j') :
    stripFences (w1 ++ ("```".data ++ tag ++ (c :: J') ++ "```".data) ++ w2)
      = trimL (c :: J') := by
  have hbq : "```".data = [backquote, backquote, backquote] := by decide
  have hbqw : backquote.isWhitespace = false := by decide
  have hr0 : trimL (w1 ++ ("```".data ++ tag ++ (c :: J') ++ "```".data) ++ w2)
      = "```".data ++ tag ++ (c :: J') ++ "```".data := by
    refine trimL_sandwich w1 w2 ("```".data ++ tag ++ (c :: J') ++ "```".data)
      backquote backquote ([backquote, backquote] ++ tag ++ (c :: J') ++ "```".data)
      ("```".data ++ tag ++ (c :: J') ++ [backquote, backquote]) ?_ ?_ hbqw hbqw hw1 hw2
    · rw [hbq]; simp
    · rw [hbq]; simp
  have e2 : stripOpen ((c :: J') ++ "```".data) = (c :: J') ++ "```".data := by
    unfold stripOpen
    rw [if_neg]
    intro h
    rw [List.isPrefixOf_iff_prefix] at h
    obtain ⟨k, hk⟩ := h
    rw [hbq] at hk
    simp only [List.cons_append, List.append_assoc] at hk
    exact hc1 (by injection hk with h1 _; exact h1.symm)
  have e3 : stripClose ((c :: J') ++ "```".data) = c :: J' := by
    unfold stripClose
    rw [if_pos (List.isSuffixOf_iff_suffix.mpr (List.suffix_append _ _))]
    unfold dropRightL
    rw [List.length_append, show ("```".data).length = 3 from by decide,
      Nat.add_sub_cancel, List.take_left]
  unfold stripFences
  rw [hr0]
  rcases htag with rfl | rfl
  · have e1 : stripTag ("```".data ++ "json".data ++ (c :: J') ++ "```".data)
        = (c :: J') ++ "```".data := by
      have hm : "```".data ++ "json".data ++ (c :: J') ++ "```".data
          = "```json".data ++ ((c :: J') ++ "```".data) := by
        rw [show "```".data ++ "json".data = "```json".data from by decide, List.append_assoc]
      unfold stripTag
      rw [hm, if_pos (List.isPrefixOf_iff_prefix.mpr (List.prefix_append _ _)),
        List.drop_left' (by decide)]
    rw [e1, e2, e3]
  · have e1 : stripTag ("```".data ++ [] ++ (c :: J') ++ "```".data)
        = "```".data ++ ((c :: J') ++ "```".data) := by
      unfold stripTag
      rw [if_neg, List.append_nil, List.append_assoc]
      intro h
      rw [List.isPrefixOf_iff_prefix] at h
      obtain ⟨k, hk⟩ := h
      rw [show "```json".data = [backquote, backquote, backquote, 'j', 's', 'o', 'n'] from by
        decide, hbq] at hk
      simp only [List.append_nil, List.cons_append, List.nil_append, List.cons.injEq,
        List.append_assoc] at hk
      exact hc2 hk.2.2.2.1.symm
    have e1b : stripOpen ("```".data ++ ((c :: J') ++ "```".data))
        = (c :: J') ++ "```".data := by
      unfold stripOpen
      rw [if_pos (List.isPrefixOf_iff_prefix.mpr (List.prefix_append _ _)),
        List.drop_left' (by decide)]
    rw [e1, e1b, e3]

/-! ## Claim theorems -/

/-- C10: `extract_data_from_file` returns exactly one of `(record, None)`
or `(None, error message)` — never both populated, never both `None` — and
every successful record carries a `'filename'` key equal to the uploaded
file's name. -/
theorem extract_exclusive_outcomes (name : String) (oracle : Except String String) :
    (∃ r, extract_data_from_file name oracle = (some r, none) ∧
        jsonLookup r "filename" = some (.str name)) ∨
    (∃ e, extract_data_from_file name oracle = (none, some e)) := by
  rcases extract_outcome name oracle with ⟨fs, h⟩ | ⟨p, s, h⟩
  · exact Or.inl ⟨_, h, by simp [jsonLookup, JsonFields.lookup_setKey]⟩
  · exact Or.inr ⟨_, h⟩

/-- C2: `extract_data_from_file` never lets an exception escape (it is a
total function into `(record, None)` / `(None, message)`); the batch loop
collects the successful records and the error messages independently and in
order, so one document's failure neither aborts nor blocks its siblings;
and every error message contains the failing document's file name. -/
theorem batch_error_isolation (files : List (String × Except String String)) :
    processBatch files
      = (files.filterMap (fun f => (extract_data_from_file f.1 f.2).1),
         files.filterMap (fun f => (extract_data_from_file f.1 f.2).2)) ∧
    ∀ name oracle e, (extract_data_from_file name oracle).2 = some e →
      ∃ p s, e = p ++ name ++ s := by
  constructor
  · simpa using processBatch_foldl files [] []
  · intro name oracle e he
    rcases extract_outcome name oracle with ⟨fs, h⟩ | ⟨p, s, h⟩
    · rw [h] at he; cases he
    · rw [h] at he
      exact ⟨p, s, (Option.some_inj.mp he).symm⟩

/-- Witness for C2: a batch of three documents where the second one's
oracle call fails yields the records of documents 1 and 3 plus one error
naming document 2. -/
theorem batch_error_isolation_witness :
    processBatch [("a.pdf", .ok "\x7b\x7d"), ("b.pdf", .error "boom"), ("c.pdf", .ok "\x7b\x7d")]
      = ([.obj (.cons "filename" (.str "a.pdf") .nil),
          .obj (.cons "filename" (.str "c.pdf") .nil)],
         ["Error processing b.pdf: boom"]) ∧
    ∃ p s, "Error processing b.pdf: boom" = p ++ "b.pdf" ++ s :=
  ⟨(batch_error_isolation
      [("a.pdf", .ok "\x7b\x7d"), ("b.pdf", .error "boom"), ("c.pdf", .ok "\x7b\x7d")]).1.trans
        (by decide),
   (batch_error_isolation ([] : List (String × Except String String))).2
     "b.pdf" (.error "boom") "Error processing b.pdf: boom" (by decide)⟩

/-- C5: whenever the number of uploaded documents differs from the
previously recorded upload count, the accumulated statements and the
processing flag are reset before processing, so the resulting session
state holds exactly this batch's records — nothing is appended to the
previous batch's results. -/
theorem upload_count_reset (st0 : SessionState)
    (files : List (String × Except String String))
    (hne : files ≠ []) (hcount : files.length ≠ st0.last_upload_count) :
    handleUpload st0 files =
      { all_statements := (processBatch files).1,
        processing_complete := true,
        last_upload_count := files.length } := by
  unfold handleUpload
  simp [hne, hcount]

/-- Witness for C5: a session holding one statement from a two-document
upload, given a fresh single-document upload, ends up with exactly the new
batch's (empty) results and count 1. -/
theorem upload_count_reset_witness :
    handleUpload ⟨[.null], true, 2⟩ [("a.pdf", .error "boom")] = ⟨[], true, 1⟩ ∧
    ([("a.pdf", Except.error "boom")] : List (String × Except String String)) ≠ [] ∧
    ([("a.pdf", Except.error "boom")] : List (String × Except String String)).length ≠ 2 :=
  ⟨(upload_count_reset ⟨[.null], true, 2⟩ [("a.pdf", Except.error "boom")]
      (List.cons_ne_nil _ _) (by decide)).trans (by decide),
   List.cons_ne_nil _ _, by decide⟩


/-- C3: an oracle response that is a valid JSON object (in the modelled
sublanguage) wrapped in triple-backtick code fencing — with or without the
`json` language tag, with whitespace around and inside the fence — has its
fences stripped and the enclosed object parsed and returned as the record,
not an error. -/
theorem fenced_json_extracted (name : String) (w1 w2 J' : List Char) (c : Char)
    (tag : List Char) (fs : JsonFields)
    (htag : tag = "json".data ∨ tag = [])
    (hw1 : ∀ x ∈ w1, x.isWhitespace = true) (hw2 : ∀ x ∈ w2, x.isWhitespace = true)
    (hc1 : c ≠ backquote) (hc2 : c ≠ 'j')
    (hload : loads (trimL (c :: J')) = some (.obj fs)) :
    extract_data_from_file name
        (.ok (String.mk (w1 ++ ("```".data ++ tag ++ (c :: J') ++ "```".data) ++ w2)))
      = (some (.obj (fs.setKey "filename" (.str name))), none) := by
  have key : ∀ t : String, stripFences t.data = trimL (c :: J') →
      extract_data_from_file name (.ok t)
        = (some (.obj (fs.setKey "filename" (.str name))), none) := by
    intro t ht
    dsimp only [extract_data_from_file]
    rw [ht, hload]
  exact key _ (stripFences_fenced w1 w2 J' c tag htag hw1 hw2 hc1 hc2)

/-- Witness for C3: a concrete fenced response — a space, ` ```json `, a
newline, the object, a newline, ` ``` ` and a newline — is parsed into its
record. -/
theorem fenced_json_extracted_witness :
    extract_data_from_file "s1.pdf"
        (.ok (String.mk ([' '] ++ ("```".data ++ "json".data ++
          ('\n' :: "\x7b\x22issuer\x22: \x22X\x22\x7d\n".data) ++ "```".data) ++ ['\n'])))
      = (some (.obj (.cons "issuer" (.str "X") (.cons "filename" (.str "s1.pdf") .nil))), none) :=
  (fenced_json_extracted "s1.pdf" [' '] ['\n'] "\x7b\x22issuer\x22: \x22X\x22\x7d\n".data '\n'
    "json".data (.cons "issuer" (.str "X") .nil) (Or.inl rfl)
    (by decide) (by decide) (by decide) (by decide) (by decide))

/-- Counterexample to C4: a response whose JSON parses to the empty object
matches nothing of the §3 StatementRecord shape, yet
`extract_data_from_file` returns it as the extracted record with no
error. -/
theorem shape_not_validated_cex :
    extract_data_from_file "doc.pdf" (.ok "\x7b\x7d")
      = (some (.obj (.cons "filename" (.str "doc.pdf") .nil)), none) ∧
    matchesStatementShape (.obj (.cons "filename" (.str "doc.pdf") .nil)) = false := by
  decide

/-- C4 (amended): after parsing the response, the only structural check the
code performs is that the parsed JSON value is an object — the side effect
of `data['filename'] = ...`.  A parsed non-object yields a per-document
error naming the document, and an unparseable response yields a JSON error
naming the document, but an object of any shape — matching the §3
StatementRecord shape or not — is returned as the record. -/
theorem extract_object_only (name : String) (t : String) :
    (∀ fs : JsonFields, loads (stripFences t.data) = some (.obj fs) →
      extract_data_from_file name (.ok t)
        = (some (.obj (fs.setKey "filename" (.str name))), none)) ∧
    (∀ v : Json, loads (stripFences t.data) = some v → (∀ fs : JsonFields, v ≠ .obj fs) →
      extract_data_from_file name (.ok t)
        = (none, some ("Error processing " ++ name ++ ": " ++ typeErrorDetail))) ∧
    (loads (stripFences t.data) = none →
      extract_data_from_file name (.ok t)
        = (none, some ("JSON parsing error in " ++ name ++ ": " ++ jsonErrorDetail))) := by
  refine ⟨?_, ?_, ?_⟩
  · intro fs h
    simp [extract_data_from_file, h]
  · intro v h hv
    cases v with
    | obj fs => exact absurd rfl (hv fs)
    | str s => simp [extract_data_from_file, h]
    | num n => simp [extract_data_from_file, h]
    | bool b => simp [extract_data_from_file, h]
    | null => simp [extract_data_from_file, h]
    | arr xs => simp [extract_data_from_file, h]
  · intro h
    simp [extract_data_from_file, h]

/-- Witness for the amended C4: a response parsing to the number 17 is not
an object and produces the per-document `TypeError`-path error. -/
theorem extract_object_only_witness :
    extract_data_from_file "doc.pdf" (.ok "17")
      = (none, some ("Error processing doc.pdf: " ++ typeErrorDetail)) :=
  (extract_object_only "doc.pdf" "17").2.1 (.num 17) (by decide)
    (fun _ h => Json.noConfusion h)

theorem jsonGetD_eq : ∀ (j : Json) (k : String) (d : Json),
    jsonGetD j k d = (jsonLookup j k).getD d
  | .str _, _, _ => rfl
  | .num _, _, _ => rfl
  | .bool _, _, _ => rfl
  | .null, _, _ => rfl
  | .arr _, _, _ => rfl
  | .obj _, _, _ => rfl

/-- C7: utilization is computed by division only under a positive parsed
credit limit.  When `parse_amount` of the `credit_limit` field is zero or
negative, the comparison table and the per-card metric report `'N/A'` and
the comparison chart reports `0`; when it is positive, the field is
present and every divisor used equals its positive parsed value, so the
division is guarded and division by zero cannot occur. -/
theorem utilization_guarded (stmt : Json) :
    (parse_amount (pyStrOfJson (jsonGetD stmt "credit_limit" (.str "0"))) ≤ 0 →
      comparisonUtilization stmt = "N/A" ∧ metricUtilization stmt = "N/A" ∧
      chartUtilization stmt = 0) ∧
    (0 < parse_amount (pyStrOfJson (jsonGetD stmt "credit_limit" (.str "0"))) →
      ∃ v : Json, jsonLookup stmt "credit_limit" = some v ∧
        0 < parse_amount (pyStrOfJson v) ∧
        comparisonUtilization stmt =
          pyFormat1f (parse_amount (pyStrOfJson (jsonGetD stmt "total_amount_due" (.str "0"))) /
            parse_amount (pyStrOfJson v) * 100) ++ "%" ∧
        metricUtilization stmt =
          pyFormat1f (parse_amount (pyStrOfJson (jsonGetD stmt "total_amount_due" (.str "0"))) /
            parse_amount (pyStrOfJson v) * 100) ++ "%" ∧
        chartUtilization stmt =
          parse_amount (pyStrOfJson (jsonGetD stmt "total_amount_due" (.str "0"))) /
            parse_amount (pyStrOfJson v) * 100) := by
  constructor
  · intro h
    have h' := not_lt.mpr h
    refine ⟨?_, ?_, ?_⟩
    · simp only [comparisonUtilization, if_neg h']
    · simp only [metricUtilization, if_neg h']
    · simp only [chartUtilization, if_neg h']
  · intro h
    cases hv : jsonLookup stmt "credit_limit" with
    | none =>
      exfalso
      have hz : parse_amount (pyStrOfJson (jsonGetD stmt "credit_limit" (.str "0"))) = 0 := by
        rw [jsonGetD_eq, hv]
        decide
      rw [hz] at h
      exact lt_irrefl 0 h
    | some v =>
      have h0 : jsonGetD stmt "credit_limit" (.str "0") = v := by rw [jsonGetD_eq, hv]; rfl
      have h1 : jsonGetD stmt "credit_limit" (.str "1") = v := by rw [jsonGetD_eq, hv]; rfl
      rw [h0] at h
      refine ⟨v, rfl, h, ?_, ?_, ?_⟩
      · simp only [comparisonUtilization, h0, h1, if_pos h]
      · simp only [metricUtilization, h0, if_pos h]
      · simp only [chartUtilization, h0, if_pos h]

/-- Witness for C7: a statement whose credit limit parses to zero reports
`'N/A'` / `0` utilization in all three places. -/
theorem utilization_guarded_witness :
    parse_amount (pyStrOfJson (jsonGetD (Json.obj (.cons "credit_limit" (.str "0") .nil))
        "credit_limit" (.str "0"))) ≤ 0 ∧
    (comparisonUtilization (Json.obj (.cons "credit_limit" (.str "0") .nil)) = "N/A" ∧
     metricUtilization (Json.obj (.cons "credit_limit" (.str "0") .nil)) = "N/A" ∧
     chartUtilization (Json.obj (.cons "credit_limit" (.str "0") .nil)) = 0) :=
  ⟨by decide,
   (utilization_guarded (Json.obj (.cons "credit_limit" (.str "0") .nil))).1 (by decide)⟩

theorem JsonList.ofList_toList : ∀ xs : JsonList, JsonList.ofList xs.toList = xs
  | .nil => rfl
  | .cons x tl => by
    simp [JsonList.toList, JsonList.ofList, JsonList.ofList_toList tl]

theorem JsonFields.setKey_self : ∀ (fs : JsonFields) (k : String) (v : Json),
    fs.lookup k = some v → fs.setKey k v = fs
  | .nil, k, v => by simp [JsonFields.lookup]
  | .cons k' v' tl, k, v => by
    intro h
    by_cases hk : k' = k
    · subst hk
      have hv : v' = v := by simpa [JsonFields.lookup] using h
      simp [JsonFields.setKey, hv]
    · simp only [JsonFields.lookup, if_neg hk] at h
      simp [JsonFields.setKey, hk, JsonFields.setKey_self tl k v h]

theorem foldl_append_eq {α β : Type} (g : α → List β) :
    ∀ (l : List α) (init : List β),
      l.foldl (fun acc x => acc ++ g x) init = init ++ (l.map g).flatten
  | [], init => by simp
  | x :: t, init => by
    rw [List.foldl_cons, foldl_append_eq g t (init ++ g x)]
    simp [List.append_assoc]

theorem setStmtTxns_self (stmt : Json) : setStmtTxns stmt (stmtTxns stmt) = stmt := by
  unfold setStmtTxns
  cases hv : jsonLookup stmt "transactions" with
  | none => rfl
  | some v =>
    cases v with
    | arr ts =>
      have ht : stmtTxns stmt = ts.toList := by
        unfold stmtTxns
        rw [jsonGetD_eq, hv]
        rfl
      rw [ht, JsonList.ofList_toList]
      cases stmt with
      | obj fs =>
        simp only [jsonSetKey]
        rw [JsonFields.setKey_self fs _ _ hv]
      | str s => simp [jsonLookup] at hv
      | num n => simp [jsonLookup] at hv
      | bool b => simp [jsonLookup] at hv
      | null => simp [jsonLookup] at hv
      | arr xs => simp [jsonLookup] at hv
    | str s => rfl
    | num n => rfl
    | bool b => rfl
    | null => rfl
    | obj fs => rfl

/-- C9: batch aggregation and export never mutate a StatementRecord.  The
transactions-CSV export adds its `card` column (issuer plus last-4) to a
copy of each transaction, so after the export the session's statements are
exactly what extraction produced; the exported rows are the per-statement
transactions with the `card` key set; and the (pure) portfolio totals
computed over the statements after the export agree with those computed
before. -/
theorem export_preserves_records (stmts : List Json) :
    (exportTransactions stmts).2 = stmts ∧
    (exportTransactions stmts).1
      = (stmts.map (fun s => (stmtTxns s).map
          (fun t => jsonSetKey t "card" (.str (cardIdOf s))))).flatten ∧
    portfolioTotals (exportTransactions stmts).2 = portfolioTotals stmts := by
  have h2 : (exportTransactions stmts).2 = stmts := by
    show stmts.map _ = stmts
    have : ∀ s ∈ stmts,
        setStmtTxns s ((stmtTxns s).map (fun t => (exportTxnStep (cardIdOf s) t).2))
          = id s := by
      intro s _
      have hmap : (stmtTxns s).map (fun t => (exportTxnStep (cardIdOf s) t).2)
          = stmtTxns s := by
        simp [exportTxnStep]
      rw [hmap]
      exact setStmtTxns_self s
    rw [List.map_congr_left this, List.map_id]
  refine ⟨h2, ?_, by rw [h2]⟩
  show stmts.foldl _ [] = _
  rw [foldl_append_eq (fun s => (stmtTxns s).map
    (fun t => (exportTxnStep (cardIdOf s) t).1)) stmts []]
  simp [exportTxnStep]

/-- C1: `parse_amount` removes every character of its input that is not a
digit, a decimal point or a minus sign, parses the remainder as a decimal
number, and returns `0.0` whenever that parse fails — it is a total
function, so no exception reaches the caller; in particular the three
examples of the spec hold. -/
theorem parse_amount_contract :
    parse_amount "₹12,345.67" = 1234567 / 100 ∧
    parse_amount "abc" = 0 ∧
    parse_amount "-500" = -500 ∧
    (∀ s : String, cleanAmount s.data
        = s.data.filter (fun c => c.isDigit || c == '.' || c == '-')) ∧
    (∀ s : String, ∀ q : ℚ, floatParseClean (cleanAmount s.data) = some q →
      parse_amount s = q) ∧
    (∀ s : String, floatParseClean (cleanAmount s.data) = none → parse_amount s = 0) := by
  refine ⟨?_, by decide, by decide, fun s => rfl, ?_, ?_⟩
  · rw [show (1234567 / 100 : ℚ) = mkRat 1234567 100 from by
      rw [Rat.mkRat_eq_divInt, Rat.divInt_eq_div]; norm_num]
    decide
  · intro s q h
    unfold parse_amount
    rw [h]
  · intro s h
    unfold parse_amount
    rw [h]

/-- Witness for C1: the fallback and success branches at concrete inputs. -/
theorem parse_amount_contract_witness :
    parse_amount "xyz" = 0 ∧ parse_amount "7.5cr" = mkRat 75 10 :=
  ⟨parse_amount_contract.2.2.2.2.2 "xyz" (by decide),
   parse_amount_contract.2.2.2.2.1 "7.5cr" (mkRat 75 10) (by decide)⟩

/-- Counterexample to C8: a StatementRecord whose transaction carries the
amount string `"-500"` — `parse_amount` preserves the minus sign, and the
negative numeric value flows into the aggregate-chart analytics. -/
theorem txn_amount_sign_cex :
    parse_amount "-500" < 0 ∧
    aggregateChartEntries
        [.obj (.cons "transactions" (.arr (.cons (.obj (.cons "type" (.str "Debit")
          (.cons "amount" (.str "-500") .nil))) .nil)) .nil)]
      = [(Json.str "Other", -500)] := by
  decide

/-- The transaction-amount strings of the statements, as read by the
aggregate chart, contain no minus sign. -/
def stmtsAmountsClean (stmts : List Json) : Bool :=
  stmts.all (fun stmt =>
    match jsonLookup stmt "transactions" with
    | some (.arr ts) =>
      ts.toList.all (fun t =>
        !((pyStrOfJson (jsonGetD t "amount" (.str "0"))).data.contains '-'))
    | _ => true)

/-- The aggregate-chart rows contributed by one statement. -/
def stmtEntries (stmt : Json) : List (Json × ℚ) :=
  match jsonLookup stmt "transactions" with
  | some (.arr ts) =>
    (ts.toList.filter isDebitTxn).map
      (fun t => (jsonGetD t "category" (.str "Other"),
                 parse_amount (pyStrOfJson (jsonGetD t "amount" (.str "0")))))
  | _ => []

theorem aggregateChartEntries_eq (stmts : List Json) :
    aggregateChartEntries stmts = (stmts.map stmtEntries).flatten := by
  unfold aggregateChartEntries
  have hfun : (fun (acc : List (Json × ℚ)) (stmt : Json) =>
      match jsonLookup stmt "transactions" with
      | some (.arr ts) =>
        acc ++ (ts.toList.filter isDebitTxn).map
          (fun t => (jsonGetD t "category" (.str "Other"),
                     parse_amount (pyStrOfJson (jsonGetD t "amount" (.str "0")))))
      | _ => acc)
      = (fun acc stmt => acc ++ stmtEntries stmt) := by
    funext acc stmt
    unfold stmtEntries
    cases hv : jsonLookup stmt "transactions" with
    | none => simp
    | some v => cases v <;> simp
  rw [hfun, foldl_append_eq stmtEntries stmts []]
  simp

theorem floatParseMag_nonneg (l : List Char) (q : ℚ) (h : floatParseMag l = some q) :
    0 ≤ q := by
  unfold floatParseMag at h
  split at h
  · dsimp only at h
    rw [Option.some_inj] at h
    rw [← h, Rat.mkRat_eq_divInt]
    apply Rat.divInt_nonneg <;> positivity
  · cases h

theorem parse_amount_nonneg_of_no_minus (s : String) (h : '-' ∉ s.data) :
    0 ≤ parse_amount s := by
  have hclean : '-' ∉ cleanAmount s.data := fun hc => h (List.mem_of_mem_filter hc)
  have hhead : ¬ (cleanAmount s.data).head? = some '-' := by
    intro hh
    exact hclean (List.mem_of_mem_head? (by simp [hh]))
  unfold parse_amount floatParseClean
  rw [if_neg hhead]
  cases hm : floatParseMag (cleanAmount s.data) with
  | none => simp
  | some m => simpa using floatParseMag_nonneg _ m hm

/-- C8 (amended): a transaction's numeric amount as used in the analytics
is non-negative whenever its amount string contains no minus-sign
character — `parse_amount` of a minus-free string is non-negative — but the
code does not otherwise enforce the invariant: a minus sign in the amount
field propagates its sign into the numeric value (see the
counterexample). -/
theorem amounts_nonneg_when_clean (stmts : List Json)
    (h : stmtsAmountsClean stmts = true) :
    ∀ e ∈ aggregateChartEntries stmts, 0 ≤ e.2 := by
  intro e he
  rw [aggregateChartEntries_eq, List.mem_flatten] at he
  obtain ⟨l, hl, hel⟩ := he
  rw [List.mem_map] at hl
  obtain ⟨stmt, hstmt, rfl⟩ := hl
  rw [stmtsAmountsClean, List.all_eq_true] at h
  have hstmt' := h stmt hstmt
  unfold stmtEntries at hel
  cases hv : jsonLookup stmt "transactions" with
  | none => rw [hv] at hel; simp at hel
  | some v =>
    cases v with
    | arr ts =>
      rw [hv] at hel
      rw [hv] at hstmt'
      simp only [List.all_eq_true] at hstmt'
      rw [List.mem_map] at hel
      obtain ⟨t, ht, rfl⟩ := hel
      have ht' : t ∈ ts.toList := List.mem_of_mem_filter ht
      have hclean := hstmt' t ht'
      apply parse_amount_nonneg_of_no_minus
      intro hmem
      rw [Bool.not_eq_true'] at hclean
      have hc2 : (pyStrOfJson (jsonGetD t "amount" (Json.str "0"))).data.contains '-' = true :=
        List.elem_iff.mpr hmem
      rw [hc2] at hclean
      cases hclean
    | str a => rw [hv] at hel; simp at hel
    | num a => rw [hv] at hel; simp at hel
    | bool a => rw [hv] at hel; simp at hel
    | null => rw [hv] at hel; simp at hel
    | obj a => rw [hv] at hel; simp at hel

/-- Witness for the amended C8: a minus-free batch has only non-negative
analytics amounts. -/
theorem amounts_nonneg_when_clean_witness :
    stmtsAmountsClean
        [.obj (.cons "transactions" (.arr (.cons (.obj (.cons "type" (.str "Debit")
          (.cons "amount" (.str "500") .nil))) .nil)) .nil)] = true ∧
    (0 : ℚ) ≤ ((Json.str "Other", (500 : ℚ))).2 :=
  ⟨by decide,
   amounts_nonneg_when_clean
     [.obj (.cons "transactions" (.arr (.cons (.obj (.cons "type" (.str "Debit")
       (.cons "amount" (.str "500") .nil))) .nil)) .nil)]
     (by decide) (Json.str "Other", (500 : ℚ)) (by decide)⟩

/-- Counterexample to C6: `parse_amount("10000000000000000")` is `1e16`,
whose `str()` is `"1e+16"`; cleaning strips the `e` and `+`, so the round
trip yields `116.0` instead of `1e16`. -/
theorem roundtrip_cex :
    parse_amount (pyStrOfFloat (parse_amount "10000000000000000")) = 116 ∧
    parse_amount "10000000000000000" = 10000000000000000 ∧
    (116 : ℚ) ≠ 10000000000000000 := by
  decide

theorem isDigit_beq_dot_false {c : Char} (h : c.isDigit = true) : (c == '.') = false := by
  cases hb : c == '.'
  · rfl
  · rw [beq_iff_eq] at hb
    subst hb
    exact absurd h (by decide)

theorem isDigit_ne_minus {c : Char} (h : c.isDigit = true) : c ≠ '-' := by
  intro hb
  subst hb
  exact absurd h (by decide)

theorem isDigit_ne_dot {c : Char} (h : c.isDigit = true) : c ≠ '.' := by
  intro hb
  subst hb
  exact absurd h (by decide)

theorem keepChar_of_digit {c : Char} (h : c.isDigit = true) : keepChar c = true := by
  simp [keepChar, h]

theorem digitChar_isDigit {d : ℕ} (hd : d < 10) : (Nat.digitChar d).isDigit = true := by
  interval_cases d <;> decide

theorem digitChar_toNat {d : ℕ} (hd : d < 10) : (Nat.digitChar d).toNat - 48 = d := by
  interval_cases d <;> decide

theorem digitsVal_append_singleton (l : List Char) (c : Char) :
    digitsVal (l ++ [c]) = 10 * digitsVal l + (c.toNat - 48) := by
  unfold digitsVal
  rw [List.foldl_append]
  rfl

theorem natDigitsAux_val : ∀ fuel : ℕ, ∀ n : ℕ, n < 10 ^ fuel →
    digitsVal (natDigitsAux fuel n).reverse = n
  | 0 => by
    intro n hn
    interval_cases n
    rfl
  | fuel + 1 => by
    intro n hn
    unfold natDigitsAux
    by_cases h0 : n = 0
    · subst h0
      simp [digitsVal]
    · rw [if_neg h0, List.reverse_cons, digitsVal_append_singleton,
        natDigitsAux_val fuel (n / 10)
          ((Nat.div_lt_iff_lt_mul (by norm_num)).mpr (by rw [← pow_succ]; exact hn)),
        digitChar_toNat (Nat.mod_lt n (by norm_num))]
      omega

theorem natDigitsAux_digits : ∀ fuel n : ℕ, ∀ c ∈ natDigitsAux fuel n, c.isDigit = true
  | 0, n => by simp [natDigitsAux]
  | fuel + 1, n => by
    intro c hc
    unfold natDigitsAux at hc
    by_cases h0 : n = 0
    · rw [if_pos h0] at hc
      cases hc
    · rw [if_neg h0] at hc
      rcases List.mem_cons.mp hc with rfl | hc'
      · exact digitChar_isDigit (Nat.mod_lt n (by omega))
      · exact natDigitsAux_digits fuel (n / 10) c hc'

theorem natDigitsAux_length_le : ∀ fuel n k : ℕ, n < 10 ^ k →
    (natDigitsAux fuel n).length ≤ k
  | 0, n, k => by simp [natDigitsAux]
  | fuel + 1, n, k => by
    intro hn
    unfold natDigitsAux
    by_cases h0 : n = 0
    · simp [h0]
    · rw [if_neg h0]
      cases k with
      | zero => omega
      | succ k =>
        have := natDigitsAux_length_le fuel (n / 10) k
          ((Nat.div_lt_iff_lt_mul (by norm_num)).mpr (by rw [← pow_succ]; exact hn))
        simp only [List.length_cons]
        omega

theorem natChars_val (n : ℕ) : digitsVal (natChars n) = n :=
  natDigitsAux_val (n + 1) n
    (lt_of_lt_of_le (Nat.lt_pow_self (by norm_num) n)
      (Nat.pow_le_pow_right (by norm_num) (Nat.le_succ n)))

theorem natChars_digits (n : ℕ) : ∀ c ∈ natChars n, c.isDigit = true := by
  intro c hc
  exact natDigitsAux_digits (n + 1) n c (List.mem_reverse.mp hc)

theorem natChars_length_le {n k : ℕ} (h : n < 10 ^ k) : (natChars n).length ≤ k := by
  unfold natChars
  rw [List.length_reverse]
  exact natDigitsAux_length_le (n + 1) n k h

theorem natChars_ne_nil {n : ℕ} (h : n ≠ 0) : natChars n ≠ [] := by
  intro hnil
  have := natChars_val n
  rw [hnil] at this
  exact h (by simpa [digitsVal] using this.symm)

theorem digitsVal_replicate_zero (m : ℕ) (l : List Char) :
    digitsVal (List.replicate m '0' ++ l) = digitsVal l := by
  induction m with
  | zero => rfl
  | succ m ih =>
    rw [List.replicate_succ, List.cons_append]
    unfold digitsVal at ih ⊢
    rw [List.foldl_cons]
    simpa using ih

theorem takeWhile_append_stop (p : Char → Bool) (l1 : List Char) (c : Char) (l2 : List Char)
    (h1 : ∀ x ∈ l1, p x = true) (hc : p c = false) :
    (l1 ++ c :: l2).takeWhile p = l1 ∧ (l1 ++ c :: l2).dropWhile p = c :: l2 := by
  induction l1 with
  | nil =>
    constructor
    · simp [List.takeWhile_cons, hc]
    · simp [List.dropWhile_cons, hc]
  | cons a t ih =>
    obtain ⟨iht, ihd⟩ := ih (fun x hx => h1 x (by simp [hx]))
    constructor
    · simp only [List.cons_append, List.takeWhile_cons, h1 a (by simp), if_true, iht]
    · simp only [List.cons_append, List.dropWhile_cons, h1 a (by simp), if_true, ihd]

theorem count_eq_zero_of_digits {l : List Char} (h : ∀ x ∈ l, x.isDigit = true) :
    l.count '.' = 0 := by
  rw [List.count_eq_zero]
  intro hmem
  exact isDigit_ne_dot (h '.' hmem) rfl

theorem floatParseMag_body (ipc fpc : List Char)
    (hip : ∀ c ∈ ipc, c.isDigit = true) (hfp : ∀ c ∈ fpc, c.isDigit = true)
    (hne : ipc ≠ []) :
    floatParseMag (ipc ++ '.' :: fpc)
      = some (mkRat (digitsVal ipc * 10 ^ fpc.length + digitsVal fpc) (10 ^ fpc.length)) := by
  obtain ⟨htake, hdrop⟩ := takeWhile_append_stop (fun c => !(c == '.')) ipc '.' fpc
    (fun x hx => by show (!(x == '.')) = true; rw [isDigit_beq_dot_false (hip x hx)]; rfl)
    (by decide)
  have hguard : (∀ c ∈ ipc ++ '.' :: fpc, c.isDigit ∨ c = '.') ∧
      (ipc ++ '.' :: fpc).count '.' ≤ 1 ∧ (∃ c ∈ ipc ++ '.' :: fpc, c.isDigit) := by
    refine ⟨?_, ?_, ?_⟩
    · intro c hc
      rcases List.mem_append.mp hc with hc1 | hc2
      · exact Or.inl (hip c hc1)
      · rcases List.mem_cons.mp hc2 with rfl | hc3
        · exact Or.inr rfl
        · exact Or.inl (hfp c hc3)
    · rw [List.count_append, List.count_cons, count_eq_zero_of_digits hip,
        count_eq_zero_of_digits hfp]
      simp
    · obtain ⟨c, hc⟩ := List.exists_mem_of_ne_nil ipc hne
      exact ⟨c, List.mem_append.mpr (Or.inl hc), hip c hc⟩
  unfold floatParseMag
  rw [if_pos hguard]
  dsimp only
  rw [htake, hdrop]
  rfl

theorem cleanAmount_kept {l : List Char} (h : ∀ c ∈ l, keepChar c = true) :
    cleanAmount l = l :=
  List.filter_eq_self.mpr h

theorem stripFactorAux_spec (p : ℕ) (hp : 2 ≤ p) : ∀ fuel d : ℕ, d ≠ 0 → d ≤ fuel →
    d = p ^ (stripFactorAux p fuel d).1 * (stripFactorAux p fuel d).2 ∧
    ¬ p ∣ (stripFactorAux p fuel d).2 ∧ (stripFactorAux p fuel d).2 ≠ 0
  | 0, d => by
    intro hd hle
    omega
  | fuel + 1, d => by
    intro hd _hle
    unfold stripFactorAux
    by_cases hdiv : p ∣ d
    · rw [if_pos ⟨hp, hd, hdiv⟩]
      have hdp : d / p ≠ 0 :=
        (Nat.div_pos (Nat.le_of_dvd (Nat.pos_of_ne_zero hd) hdiv) (by omega)).ne'
      have hlt : d / p ≤ fuel := by
        have := Nat.div_lt_self (Nat.pos_of_ne_zero hd) (by omega : 1 < p)
        omega
      obtain ⟨he, hnd, hnz⟩ := stripFactorAux_spec p hp fuel (d / p) hdp hlt
      refine ⟨?_, hnd, hnz⟩
      dsimp only
      calc d = p * (d / p) := (Nat.mul_div_cancel' hdiv).symm
        _ = p * (p ^ (stripFactorAux p fuel (d / p)).1 * (stripFactorAux p fuel (d / p)).2) := by
            rw [← he]
        _ = p ^ ((stripFactorAux p fuel (d / p)).1 + 1) * (stripFactorAux p fuel (d / p)).2 := by
            rw [pow_succ]; ring
    · rw [if_neg (by tauto)]
      exact ⟨by simp, hdiv, hd⟩

theorem decPlaces_dvd (q : ℚ) (hdvd : ∃ c, q.den ∣ 10 ^ c) :
    q.den ∣ 10 ^ decPlaces q := by
  obtain ⟨c, hc⟩ := hdvd
  have hden : q.den ≠ 0 := q.den_nz
  unfold decPlaces den5 den2
  obtain ⟨h2eq, h2nd, h2nz⟩ := stripFactorAux_spec 2 (by norm_num) q.den q.den hden le_rfl
  obtain ⟨h5eq, h5nd, h5nz⟩ := stripFactorAux_spec 5 (by norm_num)
    (stripFactorAux 2 q.den q.den).2 (stripFactorAux 2 q.den q.den).2 h2nz le_rfl
  set a2 := (stripFactorAux 2 q.den q.den).1 with ha2
  set r2 := (stripFactorAux 2 q.den q.den).2 with hr2
  set a5 := (stripFactorAux 5 r2 r2).1 with ha5
  set r5 := (stripFactorAux 5 r2 r2).2 with hr5
  have hr2_dvd : r2 ∣ q.den := ⟨2 ^ a2, by rw [h2eq]; ring⟩
  have hr5_dvd_r2 : r5 ∣ r2 := ⟨5 ^ a5, by rw [h5eq]; ring⟩
  have h2nd5 : ¬ 2 ∣ r5 := fun h => h2nd (h.trans hr5_dvd_r2)
  have hcop : Nat.Coprime r5 10 := by
    have c2 : Nat.Coprime r5 2 :=
      ((Nat.Prime.coprime_iff_not_dvd Nat.prime_two).mpr h2nd5).symm
    have c5 : Nat.Coprime r5 5 :=
      ((Nat.Prime.coprime_iff_not_dvd (by norm_num)).mpr h5nd).symm
    rw [show (10 : ℕ) = 2 * 5 from by norm_num]
    exact Nat.Coprime.mul_right c2 c5
  have hr51 : r5 = 1 :=
    Nat.Coprime.eq_one_of_dvd (Nat.Coprime.pow_right c hcop)
      ((hr5_dvd_r2.trans hr2_dvd).trans hc)
  rw [if_pos hr51]
  have hden_eq : q.den = 2 ^ a2 * 5 ^ a5 := by
    rw [h2eq, h5eq, hr51, mul_one]
  rw [hden_eq, show (10 : ℕ) = 2 * 5 from by norm_num, Nat.mul_pow]
  exact Nat.mul_dvd_mul (pow_dvd_pow 2 (le_max_left _ _)) (pow_dvd_pow 5 (le_max_right _ _))

theorem mkRat_den_dvd (n : ℤ) (d : ℕ) : ((mkRat n d).den : ℤ) ∣ (d : ℤ) := by
  rw [Rat.mkRat_eq_divInt]
  exact Rat.den_dvd n d

theorem floatParseMag_den_dvd (l : List Char) (q : ℚ) (h : floatParseMag l = some q) :
    ∃ k : ℕ, q.den ∣ 10 ^ k := by
  unfold floatParseMag at h
  split at h
  · dsimp only at h
    rw [Option.some_inj] at h
    refine ⟨((l.dropWhile (fun c => !(c == '.'))).drop 1).length, ?_⟩
    rw [← h]
    exact Int.natCast_dvd_natCast.mp (by exact_mod_cast mkRat_den_dvd _ _)
  · cases h

theorem parse_amount_eq (s : String) :
    parse_amount s = (match floatParseClean (cleanAmount s.data) with
      | some q => q
      | none => 0) := rfl

theorem parse_amount_den_dvd (s : String) : ∃ k : ℕ, (parse_amount s).den ∣ 10 ^ k := by
  rw [parse_amount_eq]
  cases hm : floatParseClean (cleanAmount s.data) with
  | none => exact ⟨0, by decide⟩
  | some m =>
    unfold floatParseClean at hm
    by_cases hh : (cleanAmount s.data).head? = some '-'
    · rw [if_pos hh] at hm
      cases hmag : floatParseMag ((cleanAmount s.data).drop 1) with
      | none => rw [hmag] at hm; cases hm
      | some m0 =>
        rw [hmag] at hm
        simp only [Option.map_some', Option.some_inj] at hm
        obtain ⟨k, hk⟩ := floatParseMag_den_dvd _ m0 hmag
        exact ⟨k, by rw [← hm]; simpa [Rat.neg_den] using hk⟩
    · rw [if_neg hh] at hm
      obtain ⟨k, hk⟩ := floatParseMag_den_dvd _ m hm
      exact ⟨k, hk⟩

theorem mkRat_eq_abs (q : ℚ) (K N : ℕ)
    (hNden : N * q.den = q.num.natAbs * 10 ^ K) :
    (mkRat N (10 ^ K) : ℚ) = (q.num.natAbs : ℚ) / (q.den : ℚ) := by
  rw [Rat.mkRat_eq_divInt, Rat.divInt_eq_div]
  push_cast
  rw [div_eq_div_iff (by positivity) ((Nat.cast_pos.mpr q.den_pos).ne')]
  exact_mod_cast hNden

theorem posRender_ip_fp (q : ℚ) (hN0 : decSig q ≠ 0) :
    ∃ ipc fpc : List Char,
      posRender q = ipc ++ '.' :: fpc ∧
      (∀ c ∈ ipc, c.isDigit = true) ∧ (∀ c ∈ fpc, c.isDigit = true) ∧ ipc ≠ [] ∧
      mkRat (digitsVal ipc * 10 ^ fpc.length + digitsVal fpc) (10 ^ fpc.length)
        = mkRat (decSig q) (10 ^ decPlaces q) := by
  by_cases hK : decPlaces q = 0
  · refine ⟨natChars (decSig q), ['0'], ?_, natChars_digits _, ?_, natChars_ne_nil hN0, ?_⟩
    · rw [posRender, if_pos hK]
      rfl
    · intro c hc
      rw [List.mem_singleton.mp hc]
      decide
    · rw [natChars_val, show (['0'] : List Char).length = 1 from rfl,
        show digitsVal ['0'] = 0 from rfl, hK]
      rw [Rat.mkRat_eq_divInt, Rat.mkRat_eq_divInt, Rat.divInt_eq_div, Rat.divInt_eq_div]
      push_cast
      rw [div_eq_div_iff (by positivity) (by positivity)]
      ring
  · have hFlt : decSig q % 10 ^ decPlaces q < 10 ^ decPlaces q :=
      Nat.mod_lt _ (by positivity)
    have hlenF : (natChars (decSig q % 10 ^ decPlaces q)).length ≤ decPlaces q :=
      natChars_length_le hFlt
    have hfpdig : ∀ c ∈ List.replicate
        (decPlaces q - (natChars (decSig q % 10 ^ decPlaces q)).length) '0' ++
        natChars (decSig q % 10 ^ decPlaces q), c.isDigit = true := by
      intro c hc
      rcases List.mem_append.mp hc with h1 | h2
      · rw [List.eq_of_mem_replicate h1]
        decide
      · exact natChars_digits _ c h2
    have hfplen : (List.replicate
        (decPlaces q - (natChars (decSig q % 10 ^ decPlaces q)).length) '0' ++
        natChars (decSig q % 10 ^ decPlaces q)).length = decPlaces q := by
      rw [List.length_append, List.length_replicate]
      omega
    have hfpval : digitsVal (List.replicate
        (decPlaces q - (natChars (decSig q % 10 ^ decPlaces q)).length) '0' ++
        natChars (decSig q % 10 ^ decPlaces q)) = decSig q % 10 ^ decPlaces q := by
      rw [digitsVal_replicate_zero, natChars_val]
    have hNd : 10 ^ decPlaces q * (decSig q / 10 ^ decPlaces q) +
        decSig q % 10 ^ decPlaces q = decSig q := Nat.div_add_mod _ _
    cases hM : natChars (decSig q / 10 ^ decPlaces q) with
    | nil =>
      have hM0 : decSig q / 10 ^ decPlaces q = 0 := by
        have hv := natChars_val (decSig q / 10 ^ decPlaces q)
        rw [hM] at hv
        exact hv.symm.trans rfl
      refine ⟨['0'], _, ?_, ?_, hfpdig, by simp, ?_⟩
      · rw [posRender, if_neg hK, hM]
      · intro c hc
        rw [List.mem_singleton.mp hc]
        decide
      · rw [hfplen, hfpval, show digitsVal ['0'] = 0 from rfl]
        rw [hM0] at hNd
        congr 1
        push_cast
        rw [show (0 : ℤ) * 10 ^ decPlaces q = 0 from by ring, zero_add]
        exact_mod_cast by omega
    | cons a t =>
      refine ⟨a :: t, _, ?_, ?_, hfpdig, by simp, ?_⟩
      · rw [posRender, if_neg hK, hM]
      · intro c hc
        rw [← hM] at hc
        exact natChars_digits _ c hc
      · rw [hfplen, hfpval, ← hM, natChars_val]
        congr 1
        push_cast
        exact_mod_cast by rw [Nat.mul_comm]; exact hNd

theorem posRender_parse (q : ℚ) (hN0 : decSig q ≠ 0) :
    floatParseMag (posRender q) = some (mkRat (decSig q) (10 ^ decPlaces q)) := by
  obtain ⟨ipc, fpc, hsplit, hip, hfp, hne, hval⟩ := posRender_ip_fp q hN0
  rw [hsplit, floatParseMag_body ipc fpc hip hfp hne, hval]

theorem posRender_chars (q : ℚ) (hN0 : decSig q ≠ 0) :
    ∀ c ∈ posRender q, keepChar c = true := by
  obtain ⟨ipc, fpc, hsplit, hip, hfp, _, _⟩ := posRender_ip_fp q hN0
  rw [hsplit]
  intro c hc
  rcases List.mem_append.mp hc with h1 | h2
  · exact keepChar_of_digit (hip c h1)
  · rcases List.mem_cons.mp h2 with rfl | h3
    · decide
    · exact keepChar_of_digit (hfp c h3)

theorem posRender_head_digit (q : ℚ) (hN0 : decSig q ≠ 0) :
    ∃ c t, posRender q = c :: t ∧ c.isDigit = true := by
  obtain ⟨ipc, fpc, hsplit, hip, _, hne, _⟩ := posRender_ip_fp q hN0
  cases hipc : ipc with
  | nil => exact absurd hipc hne
  | cons a u =>
    refine ⟨a, u ++ '.' :: fpc, ?_, hip a (by rw [hipc]; exact List.mem_cons_self a u)⟩
    rw [hsplit, hipc, List.cons_append]

theorem parse_amount_mk (l : List Char) :
    parse_amount (String.mk l) = (match floatParseClean (cleanAmount l) with
      | some q => q
      | none => 0) := rfl

theorem parse_pyStr_positional (q : ℚ) (hq0 : q ≠ 0)
    (hdvd : q.den ∣ 10 ^ decPlaces q) (hsci : sciForm q = false) :
    parse_amount (pyStrOfFloat q) = q := by
  have hKN : decSig q * q.den = q.num.natAbs * 10 ^ decPlaces q := by
    unfold decSig
    rw [mul_assoc, Nat.div_mul_cancel hdvd]
  have hN0 : decSig q ≠ 0 :=
    mul_ne_zero (Int.natAbs_ne_zero.mpr (Rat.num_ne_zero.mpr hq0))
      (Nat.div_pos (Nat.le_of_dvd (by positivity) hdvd) q.den_pos).ne'
  have habs : (mkRat (decSig q) (10 ^ decPlaces q) : ℚ) = (q.num.natAbs : ℚ) / (q.den : ℚ) :=
    mkRat_eq_abs q _ _ hKN
  have hchars := posRender_chars q hN0
  obtain ⟨c0, t0, hhead, hc0⟩ := posRender_head_digit q hN0
  have hparse := posRender_parse q hN0
  unfold pyStrOfFloat
  rw [if_neg hq0, if_neg (show ¬ sciForm q = true from by simp [hsci])]
  by_cases hqneg : q < 0
  · rw [if_pos hqneg, List.singleton_append, parse_amount_mk]
    rw [cleanAmount_kept (by
      intro c hc
      rcases List.mem_cons.mp hc with rfl | h2
      · decide
      · exact hchars c h2)]
    unfold floatParseClean
    rw [if_pos (show ('-' :: posRender q).head? = some '-' from rfl)]
    rw [show ('-' :: posRender q).drop 1 = posRender q from rfl, hparse]
    simp only [Option.map_some']
    show -(mkRat (decSig q) (10 ^ decPlaces q) : ℚ) = q
    rw [habs]
    have hnum : ((q.num.natAbs : ℕ) : ℚ) = -(q.num : ℚ) := by
      have h1 : (q.num.natAbs : ℤ) = -q.num :=
        Int.ofNat_natAbs_of_nonpos (le_of_lt (Rat.num_neg.mpr hqneg))
      have h2 : ((q.num.natAbs : ℤ) : ℚ) = ((-q.num : ℤ) : ℚ) := by rw [h1]
      rw [Int.cast_natCast, Int.cast_neg] at h2
      exact h2
    rw [hnum, neg_div, neg_neg, Rat.num_div_den]
  · rw [if_neg hqneg, List.nil_append, parse_amount_mk, cleanAmount_kept hchars]
    unfold floatParseClean
    rw [if_neg (show ¬ (posRender q).head? = some '-' from by
      rw [hhead]
      intro hcon
      rw [List.head?_cons, Option.some_inj] at hcon
      exact isDigit_ne_minus hc0 hcon)]
    rw [hparse]
    show (mkRat (decSig q) (10 ^ decPlaces q) : ℚ) = q
    rw [habs]
    have hnum : ((q.num.natAbs : ℕ) : ℚ) = (q.num : ℚ) := by
      have h1 : (q.num.natAbs : ℤ) = q.num :=
        Int.natAbs_of_nonneg (Rat.num_nonneg.mpr (not_lt.mp hqneg))
      have h2 : ((q.num.natAbs : ℤ) : ℚ) = ((q.num : ℤ) : ℚ) := by rw [h1]
      rw [Int.cast_natCast] at h2
      exact h2
    rw [hnum, Rat.num_div_den]

/-- C6 (amended): `parse_amount(str(parse_amount(x))) = parse_amount(x)`
holds whenever `str` renders the parsed value in positional notation — the
value `0`, or magnitude in `[1e-4, 1e16)`; when `str` uses scientific
notation the cleaning step mangles the rendering and the round trip fails
(see the counterexample). -/
theorem roundtrip_positional (s : String) (h : sciForm (parse_amount s) = false) :
    parse_amount (pyStrOfFloat (parse_amount s)) = parse_amount s := by
  by_cases h0 : parse_amount s = 0
  · rw [h0]
    decide
  · exact parse_pyStr_positional (parse_amount s) h0
      (decPlaces_dvd _ (parse_amount_den_dvd s)) h

/-- Witness for the amended C6: the round trip at `"12.5"`. -/
theorem roundtrip_positional_witness :
    sciForm (parse_amount "12.5") = false ∧
    parse_amount (pyStrOfFloat (parse_amount "12.5")) = parse_amount "12.5" :=
  ⟨by decide, roundtrip_positional "12.5" (by decide)⟩

end CardParser
